import Mathlib

/-!
Shallow embedding of the three batch text-rewriting scripts of this
repository (`fix_all_warnings.py`, `fix_analysis_warnings.py`,
`fix_chrono.py`).

A file's text is modelled as `Content := List Char`.  Each Python
`re.sub(pattern, repl, content)` call is modelled by `sub matcher content`,
where `matcher` implements the deterministic match-at-a-position semantics
of the concrete pattern (every pattern used by the scripts is
backtracking-deterministic, see the comments on each matcher) and `sub`
implements `re.sub`'s left-to-right scan over non-overlapping matches,
continuing after the end of each replaced region.

Braces inside string literals are written with the escapes \x7b and \x7d.
-/

set_option maxRecDepth 200000

abbrev Content := List Char

/-- The open-brace character `{`. -/
def openBrace : Char := '\x7b'

/-- The close-brace character `}`. -/
def closeBrace : Char := '\x7d'

/-- Python `\s` on the ASCII whitespace characters.  (Python's `\s` also
matches some non-ASCII Unicode whitespace; no pattern or replacement in the
scripts produces such characters, and the model restricts to ASCII.) -/
def isPySpace (c : Char) : Bool :=
  c = ' ' || c = '\t' || c = '\n' || c = '\r' || c = '\x0b' || c = '\x0c'

/-- Python's substring test `pat in s`. -/
def containsSub (pat : Content) : Content → Bool
  | [] => pat.isPrefixOf ([] : Content)
  | c :: rest => pat.isPrefixOf (c :: rest) || containsSub pat rest

/-- Python `str.split('\n')`. -/
def splitNl (s : Content) : List Content :=
  match s with
  | [] => [[]]
  | c :: rest =>
    if c = '\n' then [] :: splitNl rest
    else
      match splitNl rest with
      | [] => [[c]]
      | l :: ls => (c :: l) :: ls

/-- Python `'\n'.join(lines)`. -/
def joinNl : List Content → Content
  | [] => []
  | [l] => l
  | l :: l2 :: ls => l ++ '\n' :: joinNl (l2 :: ls)

/-- Python `str.lower()`, character-wise, on ASCII letters and the basic
Cyrillic block (the only characters relevant to the keyword tests the
scripts perform). -/
def lowerChar (c : Char) : Char :=
  if 'A' ≤ c ∧ c ≤ 'Z' then Char.ofNat (c.toNat + 32)
  else if 0x410 ≤ c.toNat ∧ c.toNat ≤ 0x42F then Char.ofNat (c.toNat + 0x20)
  else if c.toNat = 0x401 then Char.ofNat 0x451
  else c

/-- `line.lower()` of the scripts. -/
def lowerAll (l : Content) : Content := l.map lowerChar

def catPat : Content := "category:".toList

def msgPat : Content := "message:".toList

/-- The category-selection cascade of `fix_all_warnings.py`, lines 40-51:
case-insensitive containment of keyword substrings in the message line,
first match wins, default `validation`. -/
def chooseCategory (line : Content) : Content :=
  let ll := lowerAll line
  if containsSub "сложность".toList ll || containsSub "complexity".toList ll then
    "complexity".toList
  else if containsSub "связанность".toList ll || containsSub "coupling".toList ll then
    "coupling".toList
  else if containsSub "зависимост".toList ll || containsSub "cycle".toList ll then
    "dependencies".toList
  else if containsSub "слой".toList ll || containsSub "layer".toList ll then
    "architecture".toList
  else if containsSub "имен".toList ll || containsSub "naming".toList ll then
    "naming".toList
  else
    "validation".toList

/-- The indent computation of `fix_all_warnings.py`, lines 32-37: leading
spaces of the message line (only `' '`, not tabs). -/
def indentOf (l : Content) : Content := l.takeWhile (fun c => c = ' ')

/-- The line `f'{indent}category: "{category}".to_string(),'` inserted by
`fix_all_warnings.py`, line 53. -/
def catLine (l : Content) : Content :=
  indentOf l ++ "category: \"".toList ++ chooseCategory l ++ "\".to_string(),".toList

/-- The line loop of `add_category_if_missing` (`fix_all_warnings.py`,
lines 23-54): emit every line, and after the first line containing
`message:` also emit the category line. -/
def addCategoryLines : List Content → Bool → List Content
  | [], _ => []
  | l :: ls, added =>
    if containsSub msgPat l && !added then
      l :: catLine l :: addCategoryLines ls true
    else
      l :: addCategoryLines ls added

/-- `add_category_if_missing` of `fix_all_warnings.py`, lines 15-56, as a
function of the matched text. -/
def add_category_if_missing (m : Content) : Content :=
  if containsSub catPat m then m
  else joinNl (addCategoryLines (splitNl m) false)

/-- Replacement template of `convert_string_warning`
(`fix_all_warnings.py`, lines 64-74). -/
def convert_string_warning (ind txt : Content) : Content :=
  ind ++ "warnings.push(AnalysisWarning \x7b\n".toList ++
  ind ++ "    message: ".toList ++ txt ++ ",\n".toList ++
  ind ++ "    level: Priority::Medium,\n".toList ++
  ind ++ "    category: \"analysis\".to_string(),\n".toList ++
  ind ++ "    capsule_id: None,\n".toList ++
  ind ++ "    suggestion: None,\n".toList ++
  ind ++ "\x7d);".toList

/-- Replacement template of `convert_format_warning`
(`fix_all_warnings.py`, lines 80-90). -/
def convert_format_warning (ind txt : Content) : Content :=
  ind ++ "warnings.push(AnalysisWarning \x7b\n".toList ++
  ind ++ "    message: format!(".toList ++ txt ++ "),\n".toList ++
  ind ++ "    level: Priority::Medium,\n".toList ++
  ind ++ "    category: \"analysis\".to_string(),\n".toList ++
  ind ++ "    capsule_id: None,\n".toList ++
  ind ++ "    suggestion: None,\n".toList ++
  ind ++ "\x7d);".toList

/-- `replace_warning` of `fix_analysis_warnings.py`, lines 154-164, as a
function of the three regex groups. -/
def replace_warning (p mid suf : Content) : Content :=
  if containsSub catPat p || containsSub catPat mid then p ++ mid ++ suf
  else p ++ ",\n                category: \"validation\".to_string(),".toList ++ mid ++ suf

/-- `replace_simple_warning` of `fix_analysis_warnings.py`, lines 171-175. -/
def replace_simple_warning (p suf : Content) : Content :=
  p ++ ",\n                category: \"validation\".to_string(),\n                capsule_id: None,\n                suggestion: None".toList ++ suf

/-- Greedy search for the body of `X+ tail`-shaped pattern pieces: the
largest `k` with `1 ≤ k ≤ n` such that `tail` starts at `s.drop k`.
This is what a greedy character class followed by a literal tail matches
when the class cannot cross the tail's guarding character. -/
def greedyK (tail s : Content) : Nat → Option Nat
  | 0 => none
  | k + 1 => if tail.isPrefixOf (s.drop (k + 1)) then some (k + 1) else greedyK tail s k

/-- A matcher returns, for a match anchored at the start of the input:
(matched text, replacement text, rest of the input after the match). -/
abbrev MatchResult := Option (Content × Content × Content)

def awLit : Content := "AnalysisWarning".toList

/-- Pattern 1 of `fix_all_warnings.py` (line 59):
`AnalysisWarning\s*\{[^}]*?\}` with the `add_category_if_missing`
replacement function.  `[^}]*?` reaches exactly to the first `}` after the
opening brace. -/
def matchAW (s : Content) : MatchResult :=
  if awLit.isPrefixOf s then
    let s1 := s.drop awLit.length
    let ws := s1.takeWhile isPySpace
    match s1.drop ws.length with
    | c :: s3 =>
      if c = openBrace then
        let body := s3.takeWhile (fun ch => ¬ (ch = closeBrace))
        match s3.drop body.length with
        | d :: s5 =>
          if d = closeBrace then
            let m := awLit ++ ws ++ openBrace :: (body ++ [closeBrace])
            some (m, add_category_if_missing m, s5)
          else none
        | [] => none
      else none
    | [] => none
  else none

def pushLit : Content := "warnings.push(".toList

def toStrLit : Content := ".to_string()".toList

def toStrTail : Content := ".to_string());".toList

/-- Pattern 2 of `fix_all_warnings.py` (line 76):
`(\s*)warnings\.push\(([^)]+\.to_string\(\))\);`.  The greedy `[^)]+`
takes the largest paren-free run that leaves `.to_string());` as the
immediate continuation. -/
def matchP2 (s : Content) : MatchResult :=
  let ws := s.takeWhile isPySpace
  let s1 := s.drop ws.length
  if pushLit.isPrefixOf s1 then
    let s2 := s1.drop pushLit.length
    let run := s2.takeWhile (fun c => ¬ (c = ')'))
    match greedyK toStrTail s2 run.length with
    | some k =>
      some (ws ++ pushLit ++ s2.take k ++ toStrTail,
            convert_string_warning ws (s2.take k ++ toStrLit),
            s2.drop (k + toStrTail.length))
    | none => none
  else none

def pushFmtLit : Content := "warnings.push(format!(".toList

def fmtTail : Content := "));".toList

/-- Pattern 3 of `fix_all_warnings.py` (line 92):
`(\s*)warnings\.push\(format!\(([^;]+)\)\);`. -/
def matchP3 (s : Content) : MatchResult :=
  let ws := s.takeWhile isPySpace
  let s1 := s.drop ws.length
  if pushFmtLit.isPrefixOf s1 then
    let s2 := s1.drop pushFmtLit.length
    let run := s2.takeWhile (fun c => ¬ (c = ';'))
    match greedyK fmtTail s2 run.length with
    | some k =>
      some (ws ++ pushFmtLit ++ s2.take k ++ fmtTail,
            convert_format_warning ws (s2.take k),
            s2.drop (k + fmtTail.length))
    | none => none
  else none

def msgPushLit : Content := ".warnings.push(".toList

def msgTail : Content := ".message)".toList

/-- The rule of `fix_all_warnings.py`, line 128:
`\.warnings\.push\(([^)]+)\.message\)` replaced by `.warnings.push(\1)`. -/
def matchMsg (s : Content) : MatchResult :=
  if msgPushLit.isPrefixOf s then
    let s2 := s.drop msgPushLit.length
    let run := s2.takeWhile (fun c => ¬ (c = ')'))
    match greedyK msgTail s2 run.length with
    | some k =>
      some (msgPushLit ++ s2.take k ++ msgTail,
            msgPushLit ++ s2.take k ++ [')'],
            s2.drop (k + msgTail.length))
    | none => none
  else none

def chronoLit : Content := "chrono::Some(".toList

/-- The rule of `fix_chrono.py`, line 216: `chrono::Some\(` replaced by
`Some(`. -/
def matchChrono1 (s : Content) : MatchResult :=
  if chronoLit.isPrefixOf s then
    some (chronoLit, "Some(".toList, s.drop chronoLit.length)
  else none

def someSomeLit : Content := "Some(Some(".toList

def rfcTail : Content := ").to_rfc3339()).to_rfc3339()".toList

/-- The rule of `fix_chrono.py`, line 219:
`Some\(Some\(([^)]+)\)\.to_rfc3339\(\)\)\.to_rfc3339\(\)` replaced by
`Some(\1.to_rfc3339())`.  The greedy `[^)]+` is forced to the maximal
paren-free run because the continuation starts with `)`. -/
def matchChrono2 (s : Content) : MatchResult :=
  if someSomeLit.isPrefixOf s then
    let s1 := s.drop someSomeLit.length
    let x := s1.takeWhile (fun c => ¬ (c = ')'))
    if x.isEmpty then none
    else
      let s2 := s1.drop x.length
      if rfcTail.isPrefixOf s2 then
        some (someSomeLit ++ x ++ rfcTail,
              "Some(".toList ++ x ++ ".to_rfc3339())".toList,
              s2.drop rfcTail.length)
      else none
  else none

/-- `re.sub`'s scan: try the matcher at each position from the left; on a
match, emit the replacement and continue after the matched region (which
is never rescanned); otherwise keep the character and move one position
right.  Every matcher consumes at least one character on success, so fuel
`s.length` is never exhausted. -/
def subScan (m : Content → MatchResult) : Nat → Content → Content
  | 0, s => s
  | _ + 1, [] => []
  | fuel + 1, c :: rest =>
    match m (c :: rest) with
    | some (_, r, rest2) => r ++ subScan m fuel rest2
    | none => c :: subScan m fuel rest

/-- One `re.sub(pattern, repl, content)` call. -/
def sub (m : Content → MatchResult) (s : Content) : Content :=
  subScan m s.length s

/-- The full in-memory transformation of
`fix_analysis_warnings_comprehensive` (`fix_all_warnings.py`,
lines 59-93): patterns 1, 2, 3 in order, later rules seeing the output of
earlier ones. -/
def applyAllPatterns (c : Content) : Content :=
  sub matchP3 (sub matchP2 (sub matchAW c))

/-- The in-memory transformation of the second loop of
`fix_all_warnings.py`'s `main` (line 128). -/
def applyMsgPattern (c : Content) : Content :=
  sub matchMsg c

/-- The in-memory transformation of `fix_chrono_some_in_file`
(`fix_chrono.py`, lines 216-219): the `chrono::Some(` rule, then the
nested-`Some` rule. -/
def applyChronoPatterns (c : Content) : Content :=
  sub matchChrono2 (sub matchChrono1 c)

def capLit : Content := "capsule_id:".toList

def sugLit : Content := "suggestion:".toList

def msgColonLit : Content := "message:".toList

def lvlLit : Content := "level:".toList

/-- Does the input consist of whitespace directly followed by `}` (the
`\s*\}` suffix group of the `fix_analysis_warnings.py` patterns)? -/
def wsThenBrace (u : Content) : Bool :=
  match u.drop (u.takeWhile isPySpace).length with
  | c :: _ => c = closeBrace
  | [] => false

/-- Greedy search for `[^,}]+` followed by `\s*\}`: the largest `k` with
`1 ≤ k ≤ n` such that `s.drop k` is whitespace directly followed by `}`. -/
def greedyBrace (s : Content) : Nat → Option Nat
  | 0 => none
  | k + 1 => if wsThenBrace (s.drop (k + 1)) then some (k + 1) else greedyBrace s k

/-- The part of pattern 1 of `fix_analysis_warnings.py` (line 152) after
the lazy `[^}]*?`: `\s*capsule_id:[^,]+,\s*suggestion:[^,}]+` and the
suffix group `\s*\}`.  Returns (group 2, group 3, rest). -/
def matchMidFA1 (t : Content) : Option (Content × Content × Content) :=
  let ws2 := t.takeWhile isPySpace
  let t1 := t.drop ws2.length
  if capLit.isPrefixOf t1 then
    let t2 := t1.drop capLit.length
    let v1 := t2.takeWhile (fun c => ¬ (c = ','))
    if v1.isEmpty then none
    else
      match t2.drop v1.length with
      | ',' :: t3 =>
        let ws3 := t3.takeWhile isPySpace
        let t4 := t3.drop ws3.length
        if sugLit.isPrefixOf t4 then
          let t5 := t4.drop sugLit.length
          let run := t5.takeWhile (fun c => ¬ (c = ',') ∧ ¬ (c = closeBrace))
          match greedyBrace t5 run.length with
          | some k =>
            let ws4 := (t5.drop k).takeWhile isPySpace
            some (ws2 ++ capLit ++ v1 ++ ',' :: (ws3 ++ sugLit ++ t5.take k),
                  ws4 ++ [closeBrace],
                  ((t5.drop k).drop ws4.length).drop 1)
          | none => none
        else none
      | _ => none
  else none

/-- The lazy `[^}]*?` loop: try `k = i, i + 1, ...` (at most `fuel` more
steps), shortest first, like the regex engine. -/
def lazyFindFA1 (s3 : Content) : Nat → Nat → Option (Nat × Content × Content × Content)
  | i, fuel =>
    match matchMidFA1 (s3.drop i) with
    | some r => some (i, r)
    | none =>
      match fuel with
      | 0 => none
      | fuel + 1 => lazyFindFA1 s3 (i + 1) fuel

/-- Pattern 1 of `fix_analysis_warnings.py` (line 152):
`(AnalysisWarning\s*\{[^}]*?)(\s*capsule_id:[^,]+,\s*suggestion:[^,}]+)(\s*\})`
with the `replace_warning` replacement. -/
def matchFA1 (s : Content) : MatchResult :=
  if awLit.isPrefixOf s then
    let s1 := s.drop awLit.length
    let ws1 := s1.takeWhile isPySpace
    match s1.drop ws1.length with
    | c :: s3 =>
      if c = openBrace then
        let maxRun := (s3.takeWhile (fun ch => ¬ (ch = closeBrace))).length
        match lazyFindFA1 s3 0 maxRun with
        | some (k, mid, suf, rest) =>
          let p := awLit ++ ws1 ++ openBrace :: s3.take k
          some (p ++ mid ++ suf, replace_warning p mid suf, rest)
        | none => none
      else none
    | [] => none
  else none

/-- Pattern 2 of `fix_analysis_warnings.py` (line 169):
`(AnalysisWarning\s*\{\s*message:[^,]+,\s*level:[^,}]+)(\s*\})` with the
`replace_simple_warning` replacement. -/
def matchFA2 (s : Content) : MatchResult :=
  if awLit.isPrefixOf s then
    let s1 := s.drop awLit.length
    let ws1 := s1.takeWhile isPySpace
    match s1.drop ws1.length with
    | c :: s3 =>
      if c = openBrace then
        let ws2 := s3.takeWhile isPySpace
        let t1 := s3.drop ws2.length
        if msgColonLit.isPrefixOf t1 then
          let t2 := t1.drop msgColonLit.length
          let v1 := t2.takeWhile (fun ch => ¬ (ch = ','))
          if v1.isEmpty then none
          else
            match t2.drop v1.length with
            | ',' :: t3 =>
              let ws3 := t3.takeWhile isPySpace
              let t4 := t3.drop ws3.length
              if lvlLit.isPrefixOf t4 then
                let t5 := t4.drop lvlLit.length
                let run := t5.takeWhile (fun ch => ¬ (ch = ',') ∧ ¬ (ch = closeBrace))
                match greedyBrace t5 run.length with
                | some k =>
                  let ws4 := (t5.drop k).takeWhile isPySpace
                  let p := awLit ++ ws1 ++ openBrace :: (ws2 ++ msgColonLit ++ v1 ++ ',' :: (ws3 ++ lvlLit ++ t5.take k))
                  let suf := ws4 ++ [closeBrace]
                  some (p ++ suf, replace_simple_warning p suf, ((t5.drop k).drop ws4.length).drop 1)
                | none => none
              else none
            | _ => none
        else none
      else none
    | [] => none
  else none

/-- The in-memory transformation of `fix_analysis_warning_in_file`
(`fix_analysis_warnings.py`, lines 152-177): pattern 1, then pattern 2. -/
def applyAnalysisPatterns (c : Content) : Content :=
  sub matchFA2 (sub matchFA1 c)

/-- `noM m s` holds when the matcher matches at no position of `s`, i.e.
the corresponding `re.sub` finds no match anywhere. -/
def noM (m : Content → MatchResult) (s : Content) : Bool :=
  s.tails.all (fun t => (m t).isNone)

/-- No rule of `fix_all_warnings.py`'s comprehensive pass matches. -/
def NoMatchAll (c : Content) : Bool :=
  noM matchAW c && noM matchP2 c && noM matchP3 c

/-- No rule of `fix_chrono.py` matches. -/
def NoMatchChrono (c : Content) : Bool :=
  noM matchChrono1 c && noM matchChrono2 c

/-- No rule of `fix_analysis_warnings.py` matches. -/
def NoMatchAnalysis (c : Content) : Bool :=
  noM matchFA1 c && noM matchFA2 c

/-- Console/log output of a per-file step.  `fixedFile` models
`print(f"Исправлен файл: {file_path}")`, `fileError` models
`print(f"Ошибка при обработке файла {file_path}: {e}")` (path and
message), and `plainError` models the second loop's `print(f"Ошибка: {e}")`
(message only, no path). -/
inductive LogEvent where
  | fixedFile : Content → LogEvent
  | fileError : Content → Content → LogEvent
  | plainError : Content → LogEvent
deriving DecidableEq

/-- Which file path, if any, a log line names. -/
def logPath : LogEvent → Option Content
  | .fixedFile p => some p
  | .fileError p _ => some p
  | .plainError _ => none

/-- `fix_analysis_warnings_comprehensive` of `fix_all_warnings.py`,
lines 5-104, per file.  A file is modelled as its read result: `.ok c` is
a readable file with content `c`; `.error e` is a file whose processing
raises, carrying the exception message.  Returns (returned Bool, file
content on disk afterwards, log output). -/
def fix_analysis_warnings_comprehensive (path : Content)
    (r : Except Content Content) :
    Bool × Except Content Content × List LogEvent :=
  match r with
  | .error e => (false, .error e, [.fileError path e])
  | .ok c =>
    let c2 := applyAllPatterns c
    if c2 = c then (false, .ok c, [])
    else (true, .ok c2, [.fixedFile path])

/-- `fix_chrono_some_in_file` of `fix_chrono.py`, per file. -/
def fix_chrono_some_in_file (path : Content) (r : Except Content Content) :
    Bool × Except Content Content × List LogEvent :=
  match r with
  | .error e => (false, .error e, [.fileError path e])
  | .ok c =>
    let c2 := applyChronoPatterns c
    if c2 = c then (false, .ok c, [])
    else (true, .ok c2, [.fixedFile path])

/-- One file of the second loop of `fix_all_warnings.py`'s `main`
(lines 120-135): apply the `.message` rule, write back if changed; note
the error log line carries no file path. -/
def fixWarningMessageFile (path : Content) (r : Except Content Content) :
    Except Content Content × List LogEvent :=
  match r with
  | .error e => (.error e, [.plainError e])
  | .ok c =>
    let c2 := applyMsgPattern c
    if c2 = c then (.ok c, []) else (.ok c2, [.fixedFile path])

/-- The first loop of `fix_all_warnings.py`'s `main` (lines 110-114): run
the comprehensive fixer over each file in order, counting the files for
which it returned `True`.  Returns (fixed_count, files afterwards, log). -/
def mainAllPhase1 :
    List (Content × Except Content Content) →
    Nat × List (Content × Except Content Content) × List LogEvent
  | [] => (0, [], [])
  | (p, r) :: fs =>
    let step := fix_analysis_warnings_comprehensive p r
    let rest := mainAllPhase1 fs
    (if step.1 then rest.1 + 1 else rest.1,
     (p, step.2.1) :: rest.2.1,
     step.2.2 ++ rest.2.2)

/-- The second loop of `fix_all_warnings.py`'s `main` (lines 120-135). -/
def mainAllPhase2 :
    List (Content × Except Content Content) →
    List (Content × Except Content Content) × List LogEvent
  | [] => ([], [])
  | (p, r) :: fs =>
    let step := fixWarningMessageFile p r
    let rest := mainAllPhase2 fs
    ((p, step.1) :: rest.1, step.2 ++ rest.2)

/-- `main` of `fix_all_warnings.py`: phase 1 over all files, then the
`Исправлено файлов: {fixed_count}` line (the emitted count), then phase 2.
Returns (emitted count, final files, log). -/
def mainAll (files : List (Content × Except Content Content)) :
    Nat × List (Content × Except Content Content) × List LogEvent :=
  let ph1 := mainAllPhase1 files
  let ph2 := mainAllPhase2 ph1.2.1
  (ph1.1, ph2.1, ph1.2.2 ++ ph2.2)

/-- `main` of `fix_chrono.py`: one loop, counting files for which
`fix_chrono_some_in_file` returned `True`. -/
def mainChrono :
    List (Content × Except Content Content) →
    Nat × List (Content × Except Content Content) × List LogEvent
  | [] => (0, [], [])
  | (p, r) :: fs =>
    let step := fix_chrono_some_in_file p r
    let rest := mainChrono fs
    (if step.1 then rest.1 + 1 else rest.1,
     (p, step.2.1) :: rest.2.1,
     step.2.2 ++ rest.2.2)

/-- Did phase 1 of `fix_all_warnings.py` change this file? -/
def phase1ChangedB : Except Content Content → Bool
  | .error _ => false
  | .ok c => decide (applyAllPatterns c ≠ c)

/-- Boolean disequality of file states. -/
def exceptNe (a b : Except Content Content) : Bool :=
  match a, b with
  | .ok x, .ok y => decide (x ≠ y)
  | .error x, .error y => decide (x ≠ y)
  | .ok _, .error _ => true
  | .error _, .ok _ => true

/-- How many files of `fin` hold content different from the corresponding
file of `orig` (files paired positionally). -/
def changedCount (orig fin : List (Content × Except Content Content)) : Nat :=
  (orig.zip fin).countP (fun pr => exceptNe pr.1.2 pr.2.2)

/-- The ordered keyword groups of the spec's category lookup, with their
categories, in the source's order. -/
def categoryRules : List (List Content × Content) :=
  [(["сложность".toList, "complexity".toList], "complexity".toList),
   (["связанность".toList, "coupling".toList], "coupling".toList),
   (["зависимост".toList, "cycle".toList], "dependencies".toList),
   (["слой".toList, "layer".toList], "architecture".toList),
   (["имен".toList, "naming".toList], "naming".toList)]

/-- First keyword group with a (case-insensitive) member contained in the
line wins; `validation` when none matches. -/
def firstMatchingCategory : List (List Content × Content) → Content → Content
  | [], _ => "validation".toList
  | (kws, cat) :: rs, line =>
    if kws.any (fun k => containsSub k (lowerAll line)) then cat
    else firstMatchingCategory rs line

/-- The spec's description of the category lookup: "a small fixed lookup
keyed by keyword substrings found in the record's message text
(case-insensitive containment test against an ordered list of keyword
groups; first match wins; default value if none match)". -/
def chooseCategorySpec (line : Content) : Content :=
  firstMatchingCategory categoryRules line

/-! ## General lemmas about the building blocks -/

theorem takeWhile_append_drop (p : Char → Bool) (l : Content) :
    l.takeWhile p ++ l.drop (l.takeWhile p).length = l := by
  induction l with
  | nil => rfl
  | cons c cs ih =>
    by_cases h : p c
    · simp [List.takeWhile_cons, h, List.drop_succ_cons, ih]
    · simp [List.takeWhile_cons, h]

theorem length_takeWhile_le' (p : Char → Bool) (l : Content) :
    (l.takeWhile p).length ≤ l.length := by
  induction l with
  | nil => simp
  | cons c cs ih =>
    by_cases h : p c
    · simpa [List.takeWhile_cons, h] using ih
    · simp [List.takeWhile_cons, h]

theorem mem_take_takeWhile (p : Char → Bool) {k : Nat} {ch : Char} :
    ∀ {l : Content}, k ≤ (l.takeWhile p).length → ch ∈ l.take k → p ch = true := by
  induction k with
  | zero => intro l _ hm; simp at hm
  | succ k ih =>
    intro l hk hm
    cases l with
    | nil => simp at hm
    | cons c cs =>
      by_cases h : p c
      · simp only [List.takeWhile_cons, h, if_true, List.length_cons,
          Nat.succ_le_succ_iff] at hk
        simp only [List.take_succ_cons, List.mem_cons] at hm
        rcases hm with rfl | hm
        · exact h
        · exact ih hk hm
      · simp [List.takeWhile_cons, h] at hk

theorem prefixOf_append_drop : ∀ {a b : Content},
    a.isPrefixOf b = true → b = a ++ b.drop a.length := by
  intro a
  induction a with
  | nil => intro b _; simp
  | cons c cs ih =>
    intro b h
    cases b with
    | nil => simp [List.isPrefixOf] at h
    | cons d ds =>
      simp only [List.isPrefixOf, Bool.and_eq_true, beq_iff_eq] at h
      obtain ⟨rfl, h2⟩ := h
      simpa [List.drop_succ_cons] using congrArg (c :: ·) (ih h2)

theorem append_prefixOf (a t : Content) : a.isPrefixOf (a ++ t) = true := by
  induction a with
  | nil => simp [List.isPrefixOf]
  | cons c cs ih => simp [List.isPrefixOf, ih]

theorem greedyK_spec {t s : Content} :
    ∀ {n k : Nat}, greedyK t s n = some k →
      1 ≤ k ∧ k ≤ n ∧ t.isPrefixOf (s.drop k) = true := by
  intro n
  induction n with
  | zero => intro k h; simp [greedyK] at h
  | succ n ih =>
    intro k h
    by_cases hp : t.isPrefixOf (s.drop (n + 1)) = true
    · simp only [greedyK, hp, if_true, Option.some.injEq] at h
      subst h
      exact ⟨Nat.succ_le_succ (Nat.zero_le n), Nat.le_refl _, hp⟩
    · simp only [greedyK, hp, if_false, Bool.false_eq_true] at h
      rcases ih h with ⟨h1, h2, h3⟩
      exact ⟨h1, Nat.le_trans h2 (Nat.le_succ n), h3⟩

theorem noM_head_tail {m : Content → MatchResult} {c : Char} {s : Content} :
    noM m (c :: s) = true → m (c :: s) = none ∧ noM m s = true := by
  intro h
  simp only [noM, List.tails_cons, List.all_cons, Bool.and_eq_true,
    Option.isNone_iff_eq_none] at h
  exact ⟨h.1, by simpa [noM] using h.2⟩

theorem subScan_id_of_noM (m : Content → MatchResult) :
    ∀ (fuel : Nat) (s : Content), noM m s = true → subScan m fuel s = s := by
  intro fuel
  induction fuel with
  | zero => intro s _; rfl
  | succ fuel ih =>
    intro s h
    cases s with
    | nil => rfl
    | cons c cs =>
      rcases noM_head_tail h with ⟨h1, h2⟩
      simp [subScan, h1, ih cs h2]

theorem sub_id_of_noM {m : Content → MatchResult} {s : Content} :
    noM m s = true → sub m s = s :=
  fun h => subScan_id_of_noM m s.length s h

/-! ## Lemmas about `add_category_if_missing` -/

theorem addCategoryLines_true (ls : List Content) :
    addCategoryLines ls true = ls := by
  induction ls with
  | nil => rfl
  | cons l ls ih => simp [addCategoryLines, ih]

theorem addCategoryLines_none {ls : List Content}
    (h : ∀ l ∈ ls, containsSub msgPat l = false) :
    addCategoryLines ls false = ls := by
  induction ls with
  | nil => rfl
  | cons l ls ih =>
    have hl : containsSub msgPat l = false := h l (List.mem_cons_self l ls)
    simp only [addCategoryLines, hl, Bool.false_and, Bool.false_eq_true, if_false]
    exact congrArg (l :: ·) (ih (fun x hx => h x (List.mem_cons_of_mem l hx)))

theorem addCategoryLines_first (pre : List Content) (l : Content) (post : List Content)
    (hpre : ∀ x ∈ pre, containsSub msgPat x = false)
    (hl : containsSub msgPat l = true) :
    addCategoryLines (pre ++ l :: post) false = pre ++ l :: catLine l :: post := by
  induction pre with
  | nil => simp [addCategoryLines, hl, addCategoryLines_true]
  | cons x pre ih =>
    have hx : containsSub msgPat x = false := hpre x (List.mem_cons_self x pre)
    simp only [List.cons_append, addCategoryLines, hx, Bool.false_and,
      Bool.false_eq_true, if_false]
    exact congrArg (x :: ·) (ih (fun y hy => hpre y (List.mem_cons_of_mem x hy)))

theorem splitNl_ne_nil (s : Content) : splitNl s ≠ [] := by
  cases s with
  | nil => simp [splitNl]
  | cons c rest =>
    by_cases h : c = '\n'
    · simp [splitNl, h]
    · simp only [splitNl, h, if_false]
      cases splitNl rest <;> simp

theorem joinNl_splitNl (s : Content) : joinNl (splitNl s) = s := by
  induction s with
  | nil => rfl
  | cons c rest ih =>
    by_cases h : c = '\n'
    · subst h
      simp only [splitNl, if_true]
      cases hs : splitNl rest with
      | nil => exact absurd hs (splitNl_ne_nil rest)
      | cons l ls =>
        rw [hs] at ih
        simpa [joinNl] using ih
    · simp only [splitNl, h, if_false]
      cases hs : splitNl rest with
      | nil => exact absurd hs (splitNl_ne_nil rest)
      | cons l ls =>
        rw [hs] at ih
        cases ls with
        | nil => simpa [joinNl] using congrArg (c :: ·) ih
        | cons l2 ls2 => simpa [joinNl] using congrArg (c :: ·) ih

theorem chooseCategory_eq_spec (line : Content) :
    chooseCategory line = chooseCategorySpec line := by
  simp only [chooseCategory, chooseCategorySpec, categoryRules, firstMatchingCategory,
    List.any_cons, List.any_nil, Bool.or_false]

/-! ## Claim theorems -/

/-- C3: for every `AnalysisWarning` record literal whose matched text
already contains `category:`, the category-insertion rule returns the
matched text unchanged (`fix_all_warnings.py` lines 18-20), and likewise
`replace_warning` of `fix_analysis_warnings.py` (lines 159-161) returns
the match unchanged when `category:` occurs in its prefix or middle group;
so no duplicate category field is inserted. -/
theorem c3_no_duplicate_category :
    (∀ m : Content, containsSub catPat m = true → add_category_if_missing m = m) ∧
    (∀ p mid suf : Content,
      containsSub catPat p = true ∨ containsSub catPat mid = true →
      replace_warning p mid suf = p ++ mid ++ suf) := by
  constructor
  · intro m h
    simp [add_category_if_missing, h]
  · intro p mid suf h
    rcases h with h | h <;> simp [replace_warning, h]

theorem c3_no_duplicate_category_witness :
    (containsSub catPat "AnalysisWarning \x7b message: a, category: \"x\" \x7d".toList = true ∧
      add_category_if_missing "AnalysisWarning \x7b message: a, category: \"x\" \x7d".toList =
        "AnalysisWarning \x7b message: a, category: \"x\" \x7d".toList) ∧
    (containsSub catPat "AnalysisWarning \x7b category: \"v\".to_string(),".toList = true ∧
      replace_warning "AnalysisWarning \x7b category: \"v\".to_string(),".toList
          " capsule_id: None, suggestion: None".toList " \x7d".toList =
        "AnalysisWarning \x7b category: \"v\".to_string(),".toList ++
          " capsule_id: None, suggestion: None".toList ++ " \x7d".toList) :=
  ⟨⟨by decide, c3_no_duplicate_category.1 _ (by decide)⟩,
   ⟨by decide, c3_no_duplicate_category.2 _ _ _ (Or.inl (by decide))⟩⟩

/-- C10: when the matched record text lacks `category:` and no line of it
contains `message:`, `add_category_if_missing` inserts nothing and returns
the text unchanged. -/
theorem c10_no_message_no_insert :
    ∀ m : Content, containsSub catPat m = false →
      (∀ l ∈ splitNl m, containsSub msgPat l = false) →
      add_category_if_missing m = m := by
  intro m h1 h2
  simp only [add_category_if_missing, h1, Bool.false_eq_true, if_false]
  rw [addCategoryLines_none h2, joinNl_splitNl]

theorem c10_no_message_no_insert_witness :
    (containsSub catPat "AnalysisWarning \x7b\n    level: Priority::High,\n\x7d".toList = false ∧
      (∀ l ∈ splitNl "AnalysisWarning \x7b\n    level: Priority::High,\n\x7d".toList,
        containsSub msgPat l = false)) ∧
    add_category_if_missing "AnalysisWarning \x7b\n    level: Priority::High,\n\x7d".toList =
      "AnalysisWarning \x7b\n    level: Priority::High,\n\x7d".toList :=
  ⟨⟨by decide, by decide⟩,
   c10_no_message_no_insert _ (by decide) (by decide)⟩

/-- C4 counterexample: for a single-line record literal the category line
is appended after the line containing the message field — i.e. after the
`level` field and after the closing brace — not immediately after the
message field.  The second conjunct is the output the claim's wording
("inserted immediately after the message field, all other fields and
formatting preserved") would require. -/
theorem c4_insertion_position_cex :
    applyAllPatterns "AnalysisWarning \x7b message: \"x\", level: Priority::High \x7d".toList =
      "AnalysisWarning \x7b message: \"x\", level: Priority::High \x7d\ncategory: \"validation\".to_string(),".toList ∧
    applyAllPatterns "AnalysisWarning \x7b message: \"x\", level: Priority::High \x7d".toList ≠
      "AnalysisWarning \x7b message: \"x\", category: \"validation\".to_string(), level: Priority::High \x7d".toList := by
  constructor
  · decide
  · decide

/-- C4 amended: when the matched record text lacks `category:`, the
category line — the message line's leading spaces, then
`category: "<chosen>".to_string(),` — is inserted as a new line
immediately after the FIRST LINE containing `message:`, with every other
line preserved; the chosen value agrees with the spec's ordered
case-insensitive keyword-group lookup with default `validation`.  (When
the message field ends its line, as in the multi-line layout the script
targets, this coincides with inserting immediately after the message
field.) -/
theorem c4_category_insertion :
    (∀ (m : Content) (pre : List Content) (l : Content) (post : List Content),
      containsSub catPat m = false →
      splitNl m = pre ++ l :: post →
      (∀ x ∈ pre, containsSub msgPat x = false) →
      containsSub msgPat l = true →
      add_category_if_missing m = joinNl (pre ++ l :: catLine l :: post)) ∧
    (∀ line : Content,
      catLine line =
        indentOf line ++ "category: \"".toList ++ chooseCategorySpec line ++ "\".to_string(),".toList) := by
  constructor
  · intro m pre l post h1 h2 h3 h4
    simp only [add_category_if_missing, h1, Bool.false_eq_true, if_false, h2]
    rw [addCategoryLines_first pre l post h3 h4]
  · intro line
    rw [catLine, chooseCategory_eq_spec]

theorem c4_category_insertion_witness :
    (containsSub catPat "AnalysisWarning \x7b\n    message: \"High complexity detected\",\n    level: Priority::High,\n\x7d".toList = false ∧
      splitNl "AnalysisWarning \x7b\n    message: \"High complexity detected\",\n    level: Priority::High,\n\x7d".toList =
        ["AnalysisWarning \x7b".toList] ++ "    message: \"High complexity detected\",".toList ::
          ["    level: Priority::High,".toList, "\x7d".toList] ∧
      (∀ x ∈ ["AnalysisWarning \x7b".toList], containsSub msgPat x = false) ∧
      containsSub msgPat "    message: \"High complexity detected\",".toList = true) ∧
    add_category_if_missing "AnalysisWarning \x7b\n    message: \"High complexity detected\",\n    level: Priority::High,\n\x7d".toList =
      joinNl (["AnalysisWarning \x7b".toList] ++ "    message: \"High complexity detected\",".toList ::
        catLine "    message: \"High complexity detected\",".toList ::
          ["    level: Priority::High,".toList, "\x7d".toList]) :=
  ⟨⟨by decide, by decide, by decide, by decide⟩,
   c4_category_insertion.1 _ _ _ _ (by decide) (by decide) (by decide) (by decide)⟩

theorem applyAllPatterns_id_of_noMatch {c : Content} (h : NoMatchAll c = true) :
    applyAllPatterns c = c := by
  simp only [NoMatchAll, Bool.and_eq_true] at h
  rw [applyAllPatterns, sub_id_of_noM h.1.1, sub_id_of_noM h.1.2, sub_id_of_noM h.2]

theorem applyChronoPatterns_id_of_noMatch {c : Content} (h : NoMatchChrono c = true) :
    applyChronoPatterns c = c := by
  simp only [NoMatchChrono, Bool.and_eq_true] at h
  rw [applyChronoPatterns, sub_id_of_noM h.1, sub_id_of_noM h.2]

theorem applyAnalysisPatterns_id_of_noMatch {c : Content} (h : NoMatchAnalysis c = true) :
    applyAnalysisPatterns c = c := by
  simp only [NoMatchAnalysis, Bool.and_eq_true] at h
  rw [applyAnalysisPatterns, sub_id_of_noM h.1, sub_id_of_noM h.2]

/-- C1: a processed file is written back exactly when the script's rule
sequence changes its content (the returned flag is the write guard
`content != original_content`), the on-disk content afterwards is the
transformed text, and for content matched by no rule the transformation is
the identity and no write occurs. -/
theorem c1_write_iff_changed :
    ∀ p c : Content,
      ((fix_analysis_warnings_comprehensive p (.ok c)).1 = true ↔ applyAllPatterns c ≠ c) ∧
      (fix_analysis_warnings_comprehensive p (.ok c)).2.1 = .ok (applyAllPatterns c) ∧
      ((fix_chrono_some_in_file p (.ok c)).1 = true ↔ applyChronoPatterns c ≠ c) ∧
      (fix_chrono_some_in_file p (.ok c)).2.1 = .ok (applyChronoPatterns c) ∧
      (NoMatchAll c = true →
        applyAllPatterns c = c ∧ (fix_analysis_warnings_comprehensive p (.ok c)).1 = false) ∧
      (NoMatchChrono c = true →
        applyChronoPatterns c = c ∧ (fix_chrono_some_in_file p (.ok c)).1 = false) := by
  intro p c
  refine ⟨?_, ?_, ?_, ?_, ?_, ?_⟩
  · by_cases h : applyAllPatterns c = c <;>
      simp [fix_analysis_warnings_comprehensive, h]
  · by_cases h : applyAllPatterns c = c <;>
      simp [fix_analysis_warnings_comprehensive, h]
  · by_cases h : applyChronoPatterns c = c <;>
      simp [fix_chrono_some_in_file, h]
  · by_cases h : applyChronoPatterns c = c <;>
      simp [fix_chrono_some_in_file, h]
  · intro h
    have hid := applyAllPatterns_id_of_noMatch h
    exact ⟨hid, by simp [fix_analysis_warnings_comprehensive, hid]⟩
  · intro h
    have hid := applyChronoPatterns_id_of_noMatch h
    exact ⟨hid, by simp [fix_chrono_some_in_file, hid]⟩

theorem c1_write_iff_changed_witness :
    NoMatchAll "fn main() \x7b let x = 1; \x7d".toList = true ∧
    NoMatchChrono "fn main() \x7b let x = 1; \x7d".toList = true ∧
    (applyAllPatterns "fn main() \x7b let x = 1; \x7d".toList = "fn main() \x7b let x = 1; \x7d".toList ∧
      (fix_analysis_warnings_comprehensive "a.rs".toList
        (.ok "fn main() \x7b let x = 1; \x7d".toList)).1 = false) ∧
    (applyChronoPatterns "fn main() \x7b let x = 1; \x7d".toList = "fn main() \x7b let x = 1; \x7d".toList ∧
      (fix_chrono_some_in_file "a.rs".toList
        (.ok "fn main() \x7b let x = 1; \x7d".toList)).1 = false) :=
  ⟨by decide, by decide,
   (c1_write_iff_changed "a.rs".toList "fn main() \x7b let x = 1; \x7d".toList).2.2.2.2.1 (by decide),
   (c1_write_iff_changed "a.rs".toList "fn main() \x7b let x = 1; \x7d".toList).2.2.2.2.2 (by decide)⟩

/-- C2 counterexample: the per-file transformations are not idempotent.
`fix_chrono.py` maps `chrono::chrono::Some(x)` to `chrono::Some(x)`, which
a second pass changes again; `fix_all_warnings.py` rewrites an append
whose string literal contains a closing brace into a record literal whose
message text contains that closing brace, into which a second pass inserts
a category field. -/
theorem c2_idempotence_cex :
    applyChronoPatterns (applyChronoPatterns "chrono::chrono::Some(x)".toList) ≠
      applyChronoPatterns "chrono::chrono::Some(x)".toList ∧
    applyAllPatterns (applyAllPatterns "warnings.push(\"a\x7db\".to_string());".toList) ≠
      applyAllPatterns "warnings.push(\"a\x7db\".to_string());".toList := by
  exact ⟨by decide, by decide⟩

/-- C2 amended: one pass's output is a fixed point whenever it is matched
by no rule of the script — in particular a second pass is a no-op exactly
on match-free outputs; idempotence does not hold for every content (see
the counterexample). -/
theorem c2_fixpoint_when_matchfree :
    ∀ c : Content,
      (NoMatchAll (applyAllPatterns c) = true →
        applyAllPatterns (applyAllPatterns c) = applyAllPatterns c) ∧
      (NoMatchChrono (applyChronoPatterns c) = true →
        applyChronoPatterns (applyChronoPatterns c) = applyChronoPatterns c) ∧
      (NoMatchAnalysis (applyAnalysisPatterns c) = true →
        applyAnalysisPatterns (applyAnalysisPatterns c) = applyAnalysisPatterns c) :=
  fun _ => ⟨fun h => applyAllPatterns_id_of_noMatch h,
            fun h => applyChronoPatterns_id_of_noMatch h,
            fun h => applyAnalysisPatterns_id_of_noMatch h⟩

theorem c2_fixpoint_when_matchfree_witness :
    NoMatchAll (applyAllPatterns "let y = 2;".toList) = true ∧
    NoMatchChrono (applyChronoPatterns "let y = 2;".toList) = true ∧
    NoMatchAnalysis (applyAnalysisPatterns "let y = 2;".toList) = true ∧
    applyAllPatterns (applyAllPatterns "let y = 2;".toList) = applyAllPatterns "let y = 2;".toList ∧
    applyChronoPatterns (applyChronoPatterns "let y = 2;".toList) = applyChronoPatterns "let y = 2;".toList ∧
    applyAnalysisPatterns (applyAnalysisPatterns "let y = 2;".toList) = applyAnalysisPatterns "let y = 2;".toList :=
  ⟨by decide, by decide, by decide,
   (c2_fixpoint_when_matchfree "let y = 2;".toList).1 (by decide),
   (c2_fixpoint_when_matchfree "let y = 2;".toList).2.1 (by decide),
   (c2_fixpoint_when_matchfree "let y = 2;".toList).2.2 (by decide)⟩

/-- C6 counterexample: a double-wrapped timestamp expression of the
claimed form whose inner expression contains a `)` — here `X = now()` — is
not collapsed at all, because the pattern's `[^)]+` cannot cross a closing
parenthesis. -/
theorem c6_inner_paren_cex :
    applyChronoPatterns "Some(Some(now()).to_rfc3339()).to_rfc3339()".toList =
      "Some(Some(now()).to_rfc3339()).to_rfc3339()".toList ∧
    "Some(Some(now()).to_rfc3339()).to_rfc3339()".toList ≠
      "Some(now().to_rfc3339())".toList := by
  exact ⟨by decide, by decide⟩

/-- C6 amended: every match of the nested-`Some` rule has the form
`Some(Some(X).to_rfc3339()).to_rfc3339()` with `X` nonempty and free of
`)`, and is replaced by `Some(X.to_rfc3339())`; every match of the
`chrono::Some(` rule is replaced by `Some(`; and the two sample rewrites.
(Expressions of the double-wrapped form whose `X` contains `)` are not
collapsed — see the counterexample.) -/
theorem c6_chrono_rules :
    (∀ s : Content, (matchChrono2 s).isSome = true →
      ∃ x rest : Content,
        matchChrono2 s = some ("Some(Some(".toList ++ x ++ ").to_rfc3339()).to_rfc3339()".toList,
          "Some(".toList ++ x ++ ".to_rfc3339())".toList, rest) ∧
        x ≠ [] ∧ (∀ ch ∈ x, ¬ (ch = ')')) ∧
        s = ("Some(Some(".toList ++ x ++ ").to_rfc3339()).to_rfc3339()".toList) ++ rest) ∧
    (∀ s : Content, (matchChrono1 s).isSome = true →
      matchChrono1 s = some ("chrono::Some(".toList, "Some(".toList, s.drop 13) ∧
      s = "chrono::Some(".toList ++ s.drop 13) ∧
    applyChronoPatterns "Some(Some(created_at).to_rfc3339()).to_rfc3339()".toList =
      "Some(created_at.to_rfc3339())".toList ∧
    applyChronoPatterns "chrono::Some(x)".toList = "Some(x)".toList := by
  refine ⟨?_, ?_, by decide, by decide⟩
  · intro s h
    simp only [matchChrono2] at h ⊢
    split_ifs at h ⊢ with h1 h2 h3
    · simp at h
    · refine ⟨(s.drop someSomeLit.length).takeWhile (fun c => ¬ (c = ')')),
        ((s.drop someSomeLit.length).drop
          ((s.drop someSomeLit.length).takeWhile (fun c => ¬ (c = ')'))).length).drop
          rfcTail.length, ?_, ?_, ?_, ?_⟩
      · rfl
      · intro hx
        rw [hx] at h2
        exact h2 rfl
      · intro ch hch
        simpa using List.mem_takeWhile_imp hch
      · have e1 := prefixOf_append_drop h1
        have e2 := takeWhile_append_drop (fun c => ¬ (c = ')')) (s.drop someSomeLit.length)
        have e3 := prefixOf_append_drop h3
        conv_lhs => rw [e1, ← e2, e3]
        simp only [someSomeLit, rfcTail, List.append_assoc]
    · simp at h
    · simp at h
  · intro s h
    simp only [matchChrono1] at h ⊢
    split_ifs at h ⊢ with h1
    · refine ⟨rfl, ?_⟩
      simpa [chronoLit] using prefixOf_append_drop h1
    · simp at h

theorem c6_chrono_rules_witness :
    (matchChrono2 "Some(Some(ts).to_rfc3339()).to_rfc3339();".toList).isSome = true ∧
    (∃ x rest : Content,
      matchChrono2 "Some(Some(ts).to_rfc3339()).to_rfc3339();".toList =
        some ("Some(Some(".toList ++ x ++ ").to_rfc3339()).to_rfc3339()".toList,
          "Some(".toList ++ x ++ ".to_rfc3339())".toList, rest) ∧
      x ≠ [] ∧ (∀ ch ∈ x, ¬ (ch = ')')) ∧
      "Some(Some(ts).to_rfc3339()).to_rfc3339();".toList =
        ("Some(Some(".toList ++ x ++ ").to_rfc3339()).to_rfc3339()".toList) ++ rest) ∧
    (matchChrono1 "chrono::Some(ts)".toList).isSome = true ∧
    (matchChrono1 "chrono::Some(ts)".toList =
        some ("chrono::Some(".toList, "Some(".toList, "chrono::Some(ts)".toList.drop 13) ∧
      "chrono::Some(ts)".toList = "chrono::Some(".toList ++ "chrono::Some(ts)".toList.drop 13) :=
  ⟨by decide,
   c6_chrono_rules.1 "Some(Some(ts).to_rfc3339()).to_rfc3339();".toList (by decide),
   by decide,
   c6_chrono_rules.2.1 "chrono::Some(ts)".toList (by decide)⟩

/-- C5 counterexample: an append call passing the plain quoted string
literal `"a)b"` — whose text contains `)` — is left completely unchanged
by the rewriter, because the pattern's `[^)]+` cannot cross a closing
parenthesis; it is not replaced by the structured-record append the claim
requires. -/
theorem c5_paren_literal_cex :
    applyAllPatterns "warnings.push(\"a)b\".to_string());".toList =
      "warnings.push(\"a)b\".to_string());".toList ∧
    "warnings.push(\"a)b\".to_string());".toList ≠
      convert_string_warning [] "\"a)b\".to_string()".toList := by
  exact ⟨by decide, by decide⟩

/-- C5 amended: every match of the string-append rule has the exact form
`<ws>warnings.push(<e>.to_string());` with `<ws>` whitespace and `<e>`
nonempty and free of `)` (e.g. a quoted string literal not containing a
closing parenthesis), and is replaced by an append of a fully-populated
`AnalysisWarning` record whose message field is `<e>.to_string()` and
whose other fields take the fixed defaults of `convert_string_warning`;
appends whose argument contains `)` (or lacks the `.to_string()` suffix)
are not rewritten — see the counterexample.  The closed conjunct shows the
full rule sequence on a sample literal append. -/
theorem c5_string_push_rewrite :
    (∀ s : Content, (matchP2 s).isSome = true →
      ∃ ws e rest : Content,
        matchP2 s = some (ws ++ "warnings.push(".toList ++ e ++ ".to_string());".toList,
          convert_string_warning ws (e ++ ".to_string()".toList), rest) ∧
        (∀ ch ∈ ws, isPySpace ch = true) ∧
        e ≠ [] ∧ (∀ ch ∈ e, ¬ (ch = ')')) ∧
        s = (ws ++ "warnings.push(".toList ++ e ++ ".to_string());".toList) ++ rest) ∧
    applyAllPatterns "    warnings.push(\"test\".to_string());".toList =
      ("    warnings.push(AnalysisWarning \x7b\n" ++
       "        message: \"test\".to_string(),\n" ++
       "        level: Priority::Medium,\n" ++
       "        category: \"analysis\".to_string(),\n" ++
       "        capsule_id: None,\n" ++
       "        suggestion: None,\n" ++
       "    \x7d);").toList := by
  refine ⟨?_, by decide⟩
  intro s h
  simp only [matchP2] at h ⊢
  split_ifs at h ⊢ with h1
  · cases hg : greedyK toStrTail
        ((s.drop (s.takeWhile isPySpace).length).drop pushLit.length)
        (((s.drop (s.takeWhile isPySpace).length).drop pushLit.length).takeWhile
          (fun c => ¬ (c = ')'))).length with
    | none => rw [hg] at h; simp at h
    | some k =>
      obtain ⟨hk1, hk2, hk3⟩ := greedyK_spec hg
      refine ⟨s.takeWhile isPySpace,
        ((s.drop (s.takeWhile isPySpace).length).drop pushLit.length).take k,
        ((s.drop (s.takeWhile isPySpace).length).drop pushLit.length).drop
          (k + toStrTail.length), rfl, ?_, ?_, ?_, ?_⟩
      · intro ch hch
        exact List.mem_takeWhile_imp hch
      · intro he
        rcases List.take_eq_nil_iff.mp he with h0 | h0
        · omega
        · rw [h0] at hk2
          simp at hk2
          omega
      · intro ch hch
        simpa using mem_take_takeWhile (fun c => ¬ (c = ')')) hk2 hch
      · have e1 := (takeWhile_append_drop isPySpace s).symm
        have e2 := prefixOf_append_drop h1
        have e3 := (List.take_append_drop k
          ((s.drop (s.takeWhile isPySpace).length).drop pushLit.length)).symm
        have e4 := prefixOf_append_drop hk3
        conv_lhs => rw [e1, e2, e3, e4]
        simp only [pushLit, toStrTail, List.append_assoc, List.drop_drop, Nat.add_assoc]
  · simp at h

theorem c5_string_push_rewrite_witness :
    (matchP2 "  warnings.push(\"low coupling\".to_string()); rest".toList).isSome = true ∧
    (∃ ws e rest : Content,
      matchP2 "  warnings.push(\"low coupling\".to_string()); rest".toList =
        some (ws ++ "warnings.push(".toList ++ e ++ ".to_string());".toList,
          convert_string_warning ws (e ++ ".to_string()".toList), rest) ∧
      (∀ ch ∈ ws, isPySpace ch = true) ∧
      e ≠ [] ∧ (∀ ch ∈ e, ¬ (ch = ')')) ∧
      "  warnings.push(\"low coupling\".to_string()); rest".toList =
        (ws ++ "warnings.push(".toList ++ e ++ ".to_string());".toList) ++ rest) :=
  ⟨by decide,
   c5_string_push_rewrite.1 "  warnings.push(\"low coupling\".to_string()); rest".toList (by decide)⟩

/-- C7 counterexample: the rewriter does not handle arbitrary nested
field-access appends: an append of `w.level` is left unchanged (only the
field name `message` is matched), and a bare `warnings.push(w.message)`
without a preceding `.` is also left unchanged (the pattern requires the
qualified `.warnings.push(` form). -/
theorem c7_field_access_cex :
    applyMsgPattern "a.warnings.push(w.level)".toList = "a.warnings.push(w.level)".toList ∧
    "a.warnings.push(w.level)".toList ≠ "a.warnings.push(w)".toList ∧
    applyMsgPattern "warnings.push(w.message)".toList = "warnings.push(w.message)".toList := by
  exact ⟨by decide, by decide, by decide⟩

/-- C7 amended: every match of the `.message` rule has the exact form
`.warnings.push(<x>.message)` with `<x>` nonempty and free of `)`, and is
rewritten to `.warnings.push(<x>)`; appends of other field accesses, or to
an unqualified `warnings` collection, are not rewritten — see the
counterexample.  The closed conjunct shows the sample rewrite. -/
theorem c7_message_rewrite :
    (∀ s : Content, (matchMsg s).isSome = true →
      ∃ x rest : Content,
        matchMsg s = some (".warnings.push(".toList ++ x ++ ".message)".toList,
          ".warnings.push(".toList ++ x ++ [')'], rest) ∧
        x ≠ [] ∧ (∀ ch ∈ x, ¬ (ch = ')')) ∧
        s = (".warnings.push(".toList ++ x ++ ".message)".toList) ++ rest) ∧
    applyMsgPattern "capsule.warnings.push(warning.message)".toList =
      "capsule.warnings.push(warning)".toList := by
  refine ⟨?_, by decide⟩
  intro s h
  simp only [matchMsg] at h ⊢
  split_ifs at h ⊢ with h1
  · cases hg : greedyK msgTail (s.drop msgPushLit.length)
        ((s.drop msgPushLit.length).takeWhile (fun c => ¬ (c = ')'))).length with
    | none => rw [hg] at h; simp at h
    | some k =>
      obtain ⟨hk1, hk2, hk3⟩ := greedyK_spec hg
      refine ⟨(s.drop msgPushLit.length).take k,
        (s.drop msgPushLit.length).drop (k + msgTail.length), rfl, ?_, ?_, ?_⟩
      · intro he
        rcases List.take_eq_nil_iff.mp he with h0 | h0
        · omega
        · rw [h0] at hk2
          simp at hk2
          omega
      · intro ch hch
        simpa using mem_take_takeWhile (fun c => ¬ (c = ')')) hk2 hch
      · have e2 := prefixOf_append_drop h1
        have e3 := (List.take_append_drop k (s.drop msgPushLit.length)).symm
        have e4 := prefixOf_append_drop hk3
        conv_lhs => rw [e2, e3, e4]
        simp only [msgPushLit, msgTail, List.append_assoc, List.drop_drop, Nat.add_assoc]
  · simp at h

theorem c7_message_rewrite_witness :
    (matchMsg ".warnings.push(warning.message); tail".toList).isSome = true ∧
    (∃ x rest : Content,
      matchMsg ".warnings.push(warning.message); tail".toList =
        some (".warnings.push(".toList ++ x ++ ".message)".toList,
          ".warnings.push(".toList ++ x ++ [')'], rest) ∧
      x ≠ [] ∧ (∀ ch ∈ x, ¬ (ch = ')')) ∧
      ".warnings.push(warning.message); tail".toList =
        (".warnings.push(".toList ++ x ++ ".message)".toList) ++ rest) :=
  ⟨by decide,
   c7_message_rewrite.1 ".warnings.push(warning.message); tail".toList (by decide)⟩

theorem mainAllPhase1_append_count (a b : List (Content × Except Content Content)) :
    (mainAllPhase1 (a ++ b)).1 = (mainAllPhase1 a).1 + (mainAllPhase1 b).1 := by
  induction a with
  | nil => simp [mainAllPhase1]
  | cons f fs ih =>
    obtain ⟨p, r⟩ := f
    simp only [List.cons_append, mainAllPhase1, ih]
    by_cases hb : (fix_analysis_warnings_comprehensive p r).1 = true <;>
      simp [hb] <;> omega

theorem mainAllPhase1_append_files (a b : List (Content × Except Content Content)) :
    (mainAllPhase1 (a ++ b)).2.1 = (mainAllPhase1 a).2.1 ++ (mainAllPhase1 b).2.1 := by
  induction a with
  | nil => simp [mainAllPhase1]
  | cons f fs ih =>
    obtain ⟨p, r⟩ := f
    simp [mainAllPhase1, ih]

theorem mainAllPhase1_append_log (a b : List (Content × Except Content Content)) :
    (mainAllPhase1 (a ++ b)).2.2 = (mainAllPhase1 a).2.2 ++ (mainAllPhase1 b).2.2 := by
  induction a with
  | nil => simp [mainAllPhase1]
  | cons f fs ih =>
    obtain ⟨p, r⟩ := f
    simp [mainAllPhase1, ih]

/-- C8 counterexample: in the second loop of `fix_all_warnings.py`'s
`main`, a per-file error is logged by `print(f"Ошибка: {e}")` — with the
message only, not the file path, contradicting "logged with the file path
and message". -/
theorem c8_no_path_in_second_loop_log :
    (fixWarningMessageFile "a.rs".toList (.error "io fail".toList)).2 =
      [.plainError "io fail".toList] ∧
    (fixWarningMessageFile "a.rs".toList (.error "io fail".toList)).2.map logPath =
      [none] := by
  exact ⟨rfl, rfl⟩

/-- C8 amended: a per-file error is caught at the per-file boundary and
suppressed: the erroring file contributes a log entry (with path and
message in the comprehensive loop, message only in the second loop),
is returned as not fixed (`False`), adds nothing to the count, and the
batch processes every other file exactly as if the erroring file were
absent; processing is a total function — no error escapes to the process
level. -/
theorem c8_error_suppression :
    ∀ (pre post : List (Content × Except Content Content)) (p e : Content),
      fix_analysis_warnings_comprehensive p (.error e) = (false, .error e, [.fileError p e]) ∧
      fixWarningMessageFile p (.error e) = (.error e, [.plainError e]) ∧
      (mainAllPhase1 (pre ++ (p, .error e) :: post)).1 =
        (mainAllPhase1 pre).1 + (mainAllPhase1 post).1 ∧
      (mainAllPhase1 (pre ++ (p, .error e) :: post)).2.1 =
        (mainAllPhase1 pre).2.1 ++ (p, .error e) :: (mainAllPhase1 post).2.1 ∧
      (mainAllPhase1 (pre ++ (p, .error e) :: post)).2.2 =
        (mainAllPhase1 pre).2.2 ++ .fileError p e :: (mainAllPhase1 post).2.2 := by
  intro pre post p e
  refine ⟨rfl, rfl, ?_, ?_, ?_⟩
  · rw [mainAllPhase1_append_count]
    simp [mainAllPhase1, fix_analysis_warnings_comprehensive]
  · rw [mainAllPhase1_append_files]
    simp [mainAllPhase1, fix_analysis_warnings_comprehensive]
  · rw [mainAllPhase1_append_log]
    simp [mainAllPhase1, fix_analysis_warnings_comprehensive]

theorem mainAllPhase1_count_filter (files : List (Content × Except Content Content)) :
    (mainAllPhase1 files).1 = files.countP (fun pr => phase1ChangedB pr.2) := by
  induction files with
  | nil => rfl
  | cons f fs ih =>
    obtain ⟨p, r⟩ := f
    cases r with
    | error e =>
      simp [mainAllPhase1, fix_analysis_warnings_comprehensive, List.countP_cons,
        phase1ChangedB, ih]
    | ok c =>
      by_cases h : applyAllPatterns c = c
      · simp [mainAllPhase1, fix_analysis_warnings_comprehensive, List.countP_cons,
          phase1ChangedB, h, ih]
      · simp [mainAllPhase1, fix_analysis_warnings_comprehensive, List.countP_cons,
          phase1ChangedB, h, ih]

/-- C9 counterexample: a file changed only by the second (`.message`) loop
of `fix_all_warnings.py`'s `main` is overwritten but not counted: the run
emits `0` while one file's content was changed. -/
theorem c9_count_cex :
    (mainAll [("a.rs".toList, .ok "a.warnings.push(w.message)".toList)]).1 = 0 ∧
    changedCount [("a.rs".toList, .ok "a.warnings.push(w.message)".toList)]
      (mainAll [("a.rs".toList, .ok "a.warnings.push(w.message)".toList)]).2.1 = 1 ∧
    (0 : Nat) ≠ 1 := by
  exact ⟨by decide, by decide, by decide⟩

/-- C9 amended: the count emitted by `fix_all_warnings.py`'s `main` equals
the number of files changed by the comprehensive (first) pass only — files
changed by the second `.message` pass are overwritten without being
counted (see the counterexample) — while for the single-loop
`fix_chrono.py` the emitted count does equal the number of files whose
content differs after the run. -/
theorem c9_count_semantics :
    (∀ files : List (Content × Except Content Content),
      (mainAll files).1 = files.countP (fun pr => phase1ChangedB pr.2)) ∧
    (∀ files : List (Content × Except Content Content),
      (mainChrono files).1 = changedCount files (mainChrono files).2.1) := by
  constructor
  · intro files
    exact mainAllPhase1_count_filter files
  · intro files
    induction files with
    | nil => rfl
    | cons f fs ih =>
      obtain ⟨p, r⟩ := f
      cases r with
      | error e =>
        simp [mainChrono, fix_chrono_some_in_file, changedCount, List.zip_cons_cons,
          List.countP_cons, exceptNe] at ih ⊢
        exact ih
      | ok c =>
        by_cases h : applyChronoPatterns c = c
        · simp [mainChrono, fix_chrono_some_in_file, changedCount, List.zip_cons_cons,
            List.countP_cons, exceptNe, h] at ih ⊢
          exact ih
        · have hne : c ≠ applyChronoPatterns c := fun he => h he.symm
          simp [mainChrono, fix_chrono_some_in_file, changedCount, List.zip_cons_cons,
            List.countP_cons, exceptNe, h, hne] at ih ⊢
          exact ih
